import Mathlib

/-!
Verification of `nuggt/calculate_intensity_in_regions.py`.

The embedding models the plane-wise warping and region-accumulation pipeline:
`do_plane` (mask, label lookup, `np.bincount`), the sequential aggregation
loop of `main`, the `count > 0` filter, the level-7 and coarse-level report
paths, and the `astype(np.uint16)` cast of the reference segmentation.
Machine integers are modelled as `Nat`/`Int`; numpy calls are embedded by
their documented elementwise semantics.
-/

namespace Nuggt

/-- The reference segmentation: a 3-D grid of non-negative integer labels,
stored flattened in C order (z-major), with explicit axis sizes.
Models the shared-memory numpy array of shape `(dimZ, dimY, dimX)`. -/
structure Segmentation where
  dimZ : Nat
  dimY : Nat
  dimX : Nat
  data : List Nat

/-- Maximum label value present in the volume: `np.max(m)` (0 on empty data). -/
def Segmentation.maxLabel (s : Segmentation) : Nat :=
  s.data.foldr max 0

/-- Label lookup `m[z, y, x]` on the flattened C-order data. -/
def Segmentation.label (s : Segmentation) (z y x : Nat) : Nat :=
  s.data.getD ((z * s.dimY + y) * s.dimX + x) 0

/-- The per-pixel warped-and-rounded coordinate map: given `(z, y, x)` in
moving space, the rounded reference-space coordinate `(zseg, yseg, xseg)`.
The nonlinear transform, its local approximation and `np.round` are external
to the core (spec sections 1 and 6), so the already-rounded integer result is
the interface the pipeline consumes. -/
abbrev Warp := Nat → Nat → Nat → Int × Int × Int

/-- The validity mask of `do_plane`:
`(xseg >= 0) & (xseg < shape[2]) & (yseg >= 0) & (yseg < shape[1]) &
(zseg >= 0) & (zseg < shape[0])`. -/
def inBounds (s : Segmentation) (c : Int × Int × Int) : Bool :=
  decide (0 ≤ c.2.2) && decide (c.2.2 < (s.dimX : Int)) &&
  decide (0 ≤ c.2.1) && decide (c.2.1 < (s.dimY : Int)) &&
  decide (0 ≤ c.1) && decide (c.1 < (s.dimZ : Int))

/-- Label at a rounded warped coordinate: `m[zseg, yseg, xseg]`
(used only where `inBounds` holds, so the `toNat` casts are lossless). -/
def labelAtC (s : Segmentation) (c : Int × Int × Int) : Nat :=
  s.label c.1.toNat c.2.1.toNat c.2.2.toNat

/-- All pixels of one plane as `(y, x, intensity)` triples, in the row-major
order produced by `np.mgrid[...]` / `plane.flatten()`. -/
def planePixels (plane : List (List Int)) : List (Nat × Nat × Int) :=
  (plane.enum.map fun r => r.2.enum.map fun q => (r.1, q.1, q.2)).flatten

/-- Length of `np.bincount(xs, minlength)`:
`max(minlength, max(xs) + 1)` (just `minlength` when `xs` is empty). -/
def bcLen (xs : List Nat) (minlength : Nat) : Nat :=
  max minlength (xs.foldr (fun a b => max (a + 1) b) 0)

/-- `np.bincount(xs, minlength=m)`: slot `i` counts the occurrences of `i`. -/
def bincount (xs : List Nat) (minlength : Nat) : List Nat :=
  (List.range (bcLen xs minlength)).map fun i => xs.count i

/-- `np.bincount(xs, weights, minlength=m)` over `(value, weight)` pairs:
slot `i` sums the weights of the pairs whose value is `i`.
The real call casts the weights to IEEE float64 (the `astype(np.int64)` in
`do_plane` notwithstanding) and accumulates and returns float64, so its
slots are the float64 roundings of these sums; the embedding keeps the
exact integer sum the int64 cast intends, and the divergence is settled in
the C1 and C3 analyses. -/
def bincountW (pairs : List (Nat × Int)) (minlength : Nat) : List Int :=
  (List.range (bcLen (pairs.map Prod.fst) minlength)).map fun i =>
    ((pairs.filter fun p => p.1 == i).map Prod.snd).sum

/-- `do_plane(filename, z, segmentation, warper)`: build the pixel grid,
warp it, mask out-of-bounds coordinates, look up the surviving labels and
bincount counts and intensity sums with `minlength = np.max(m) + 1`. -/
def doPlane (plane : List (List Int)) (z : Nat) (seg : Segmentation)
    (warp : Warp) : List Nat × List Int :=
  let valid := (planePixels plane).filter fun p => inBounds seg (warp z p.1 p.2.1)
  let pairs := valid.map fun p => (labelAtC seg (warp z p.1 p.2.1), p.2.2)
  let send := seg.maxLabel + 1
  (bincount (pairs.map Prod.fst) send, bincountW pairs send)

/-! ### Helper lemmas about `do_plane` -/

theorem getD_le_foldr_max (l : List Nat) (i : Nat) : l.getD i 0 ≤ l.foldr max 0 := by
  induction l generalizing i with
  | nil => simp [List.getD]
  | cons a t ih =>
    cases i with
    | zero => simp only [List.getD_cons_zero, List.foldr_cons]; exact le_max_left _ _
    | succ n =>
      simp only [List.getD_cons_succ, List.foldr_cons]
      exact le_trans (ih n) (le_max_right _ _)

theorem label_le_maxLabel (s : Segmentation) (z y x : Nat) :
    s.label z y x ≤ s.maxLabel :=
  getD_le_foldr_max _ _

theorem labelAtC_le_maxLabel (s : Segmentation) (c : Int × Int × Int) :
    labelAtC s c ≤ s.maxLabel :=
  label_le_maxLabel _ _ _ _

theorem bcLen_eq_of_lt {xs : List Nat} {m : Nat} (h : ∀ x ∈ xs, x < m) :
    bcLen xs m = m := by
  have hfold : xs.foldr (fun a b => max (a + 1) b) 0 ≤ m := by
    induction xs with
    | nil => simp
    | cons a t ih =>
      simp only [List.foldr_cons]
      exact max_le (h a (List.mem_cons_self a t))
        (ih fun x hx => h x (List.mem_cons_of_mem a hx))
  exact max_eq_left hfold

theorem range_map_getD {γ : Type} (n : Nat) (f : Nat → γ) (i : Nat) (d : γ)
    (h : i < n) : ((List.range n).map f).getD i d = f i := by
  simp [List.getD_eq_getElem?_getD, List.getElem?_map, List.getElem?_range h]

/-- Every label produced for a plane is strictly below `maxLabel + 1`. -/
theorem doPlane_labels_lt (plane : List (List Int)) (z : Nat) (seg : Segmentation)
    (warp : Warp) :
    ∀ x ∈ (((planePixels plane).filter fun p =>
        inBounds seg (warp z p.1 p.2.1)).map fun p =>
          (labelAtC seg (warp z p.1 p.2.1), p.2.2)).map Prod.fst,
      x < seg.maxLabel + 1 := by
  intro x hx
  simp only [List.map_map, List.mem_map, Function.comp] at hx
  obtain ⟨p, _, rfl⟩ := hx
  exact Nat.lt_succ_of_le (labelAtC_le_maxLabel _ _)

theorem doPlane_counts_length (plane : List (List Int)) (z : Nat)
    (seg : Segmentation) (warp : Warp) :
    (doPlane plane z seg warp).1.length = seg.maxLabel + 1 := by
  simp only [doPlane, bincount,
    bcLen_eq_of_lt (doPlane_labels_lt plane z seg warp),
    List.length_map, List.length_range]

theorem doPlane_sums_length (plane : List (List Int)) (z : Nat)
    (seg : Segmentation) (warp : Warp) :
    (doPlane plane z seg warp).2.length = seg.maxLabel + 1 := by
  simp only [doPlane, bincountW,
    bcLen_eq_of_lt (doPlane_labels_lt plane z seg warp),
    List.length_map, List.length_range]

theorem doPlane_counts_getD (plane : List (List Int)) (z : Nat)
    (seg : Segmentation) (warp : Warp) (l : Nat) (h : l ≤ seg.maxLabel) :
    (doPlane plane z seg warp).1.getD l 0 =
      ((planePixels plane).filter fun p =>
        inBounds seg (warp z p.1 p.2.1) &&
          (labelAtC seg (warp z p.1 p.2.1) == l)).length := by
  have hlt : l < seg.maxLabel + 1 := Nat.lt_succ_of_le h
  simp only [doPlane, bincount,
    bcLen_eq_of_lt (doPlane_labels_lt plane z seg warp)]
  rw [range_map_getD _ _ _ _ hlt]
  show List.countP (· == l) _ = _
  rw [List.map_map, List.countP_map, List.countP_filter,
    ← List.countP_eq_length_filter]
  apply List.countP_congr
  intro p _
  simp [Function.comp, Bool.and_comm]

theorem doPlane_sums_getD (plane : List (List Int)) (z : Nat)
    (seg : Segmentation) (warp : Warp) (l : Nat) (h : l ≤ seg.maxLabel) :
    (doPlane plane z seg warp).2.getD l 0 =
      (((planePixels plane).filter fun p =>
        inBounds seg (warp z p.1 p.2.1) &&
          (labelAtC seg (warp z p.1 p.2.1) == l)).map fun p => p.2.2).sum := by
  have hlt : l < seg.maxLabel + 1 := Nat.lt_succ_of_le h
  simp only [doPlane, bincountW,
    bcLen_eq_of_lt (doPlane_labels_lt plane z seg warp)]
  rw [range_map_getD _ _ _ _ hlt]
  rw [List.filter_map, List.map_map, List.filter_filter]
  apply congrArg
  apply congrArg
  apply List.filter_congr
  intro p _
  simp [Function.comp, Bool.and_comm]

/-! ### Concrete fixtures (the 2 by 2 scenario of spec section 8) -/

/-- A 1 by 2 by 2 reference segmentation `[[[1, 1], [2, 2]]]`. -/
def exSeg : Segmentation := ⟨1, 2, 2, [1, 1, 2, 2]⟩

/-- A single 2 by 2 intensity plane `[[10, 20], [30, 40]]`. -/
def exPlane : List (List Int) := [[10, 20], [30, 40]]

/-- An identity-like warp: the rounded reference coordinate is the moving
coordinate itself. -/
def exWarp : Warp := fun z y x => ((z : Int), (y : Int), (x : Int))

example : doPlane exPlane 0 exSeg exWarp = ([0, 2, 2], [0, 30, 70]) := by decide

/-! ### The aggregation driver of `main` -/

/-- One reduce step of `main`: `total_counts += c; total_sums += s` as
elementwise addition of equally sized vectors, under the exact integer
semantics the int64 declarations intend. The counts half is faithful
(int64 plus int64); the sums half is idealized: in the source `s` is the
float64 result of the weighted bincount, and the in-place add into the
int64 `total_sums` raises a same_kind ufunc casting error on numpy 1.10 or
newer (and is float64-rounded on older numpy) — see the C2, C3 and C6
analyses. -/
def accumStep (t r : List Nat × List Int) : List Nat × List Int :=
  (List.zipWith (· + ·) t.1 r.1, List.zipWith (· + ·) t.2 r.2)

/-- The zero totals `np.zeros(np.max(segmentation) + 1, np.int64)` (twice). -/
def initTotals (seg : Segmentation) : List Nat × List Int :=
  (List.replicate (seg.maxLabel + 1) 0, List.replicate (seg.maxLabel + 1) 0)

/-- The `for z, filename in enumerate(files)` loop of `main` with one core:
process plane `z`, fold its `(counts, sums)` into the running totals, in
index order. The parallel path reduces the futures list in the same
submission order (`for future in futures: c, s = future.get()`), so it
computes the same fold. -/
def runFrom (seg : Segmentation) (warp : Warp) :
    Nat → List (List (List Int)) → List Nat × List Int → List Nat × List Int
  | _, [], t => t
  | z, f :: rest, t => runFrom seg warp (z + 1) rest (accumStep t (doPlane f z seg warp))

/-- The totals computed by `main` over the whole stack, starting from zeros. -/
def runSequential (files : List (List (List Int))) (seg : Segmentation)
    (warp : Warp) : List Nat × List Int :=
  runFrom seg warp 0 files (initTotals seg)

/-- The driver part of `main`: glob check (`IOError` when no file matches),
then the one-core sequential loop, or the worker pool
(`multiprocessing.Pool(n)` raises `ValueError` for `n < 1` before any task
is submitted). The second component counts the `do_plane` calls performed. -/
def mainRun (nCores : Int) (files : List (List (List Int)))
    (seg : Segmentation) (warp : Warp) :
    Except String (List Nat × List Int) × Nat :=
  if files.length = 0 then
    (Except.error "Failed to find any files matching the input pattern", 0)
  else if nCores = 1 then
    (Except.ok (runSequential files seg warp), files.length)
  else if nCores < 1 then
    (Except.error "Number of processes must be at least 1", 0)
  else
    (Except.ok (runSequential files seg warp), files.length)

/-! ### Helper lemmas about the reduce phase -/

theorem zipWith_add_getD {M : Type} [AddCommMonoid M] (a b : List M) (i : Nat)
    (h1 : i < a.length) (h2 : i < b.length) :
    (List.zipWith (· + ·) a b).getD i 0 = a.getD i 0 + b.getD i 0 := by
  have hz : i < (List.zipWith (· + ·) a b).length := by
    rw [List.length_zipWith]; omega
  rw [List.getD_eq_getElem?_getD, List.getD_eq_getElem?_getD,
    List.getD_eq_getElem?_getD, List.getElem?_eq_getElem hz,
    List.getElem?_eq_getElem h1, List.getElem?_eq_getElem h2]
  simp [List.getElem_zipWith]

theorem getD_replicate_zero {M : Type} [Zero M] (n i : Nat) :
    (List.replicate n (0 : M)).getD i 0 = 0 := by
  induction n generalizing i with
  | zero => simp [List.getD]
  | succ m ih =>
    cases i with
    | zero => simp [List.replicate]
    | succ j => simp only [List.replicate, List.getD_cons_succ]; exact ih j

/-- Invariant of the accumulation loop: starting from totals of length
`maxLabel + 1`, the loop preserves the length and adds, slot by slot, the
per-plane contributions of the remaining planes (enumerated from `z`). -/
theorem runFrom_spec (seg : Segmentation) (warp : Warp)
    (files : List (List (List Int))) (z : Nat) (t : List Nat × List Int)
    (h1 : t.1.length = seg.maxLabel + 1) (h2 : t.2.length = seg.maxLabel + 1)
    (id : Nat) (hid : id ≤ seg.maxLabel) :
    (runFrom seg warp z files t).1.length = seg.maxLabel + 1 ∧
    (runFrom seg warp z files t).2.length = seg.maxLabel + 1 ∧
    (runFrom seg warp z files t).1.getD id 0 =
      t.1.getD id 0 + ((files.enumFrom z).map fun zf =>
        (doPlane zf.2 zf.1 seg warp).1.getD id 0).sum ∧
    (runFrom seg warp z files t).2.getD id 0 =
      t.2.getD id 0 + ((files.enumFrom z).map fun zf =>
        (doPlane zf.2 zf.1 seg warp).2.getD id 0).sum := by
  induction files generalizing z t with
  | nil => simp [runFrom, h1, h2]
  | cons f rest ih =>
    have hc := doPlane_counts_length f z seg warp
    have hs := doPlane_sums_length f z seg warp
    have h1x : (accumStep t (doPlane f z seg warp)).1.length = seg.maxLabel + 1 := by
      simp [accumStep, List.length_zipWith, h1, hc]
    have h2x : (accumStep t (doPlane f z seg warp)).2.length = seg.maxLabel + 1 := by
      simp [accumStep, List.length_zipWith, h2, hs]
    obtain ⟨ih1, ih2, ih3, ih4⟩ := ih (z + 1) (accumStep t (doPlane f z seg warp)) h1x h2x
    refine ⟨ih1, ih2, ?_, ?_⟩
    · rw [runFrom, ih3]
      rw [show (accumStep t (doPlane f z seg warp)).1 =
        List.zipWith (· + ·) t.1 (doPlane f z seg warp).1 from rfl]
      rw [zipWith_add_getD _ _ id (by omega) (by omega)]
      simp [List.enumFrom_cons, Nat.add_assoc]
    · rw [runFrom, ih4]
      rw [show (accumStep t (doPlane f z seg warp)).2 =
        List.zipWith (· + ·) t.2 (doPlane f z seg warp).2 from rfl]
      rw [zipWith_add_getD _ _ id (by omega) (by omega)]
      simp [List.enumFrom_cons, add_assoc]

/-- The one-core `main` dispatch: with a nonempty glob and `n_cores == 1`,
`mainRun` takes the sequential index-order loop over all planes. -/
theorem mainRun_one_core (files : List (List (List Int)))
    (seg : Segmentation) (warp : Warp) (hne : files ≠ []) :
    mainRun 1 files seg warp =
      (Except.ok (runSequential files seg warp), files.length) := by
  simp [mainRun, List.length_eq_zero, hne]

/-- A second plane for multi-plane fixtures. -/
def exPlaneB : List (List Int) := [[1, 2], [3, 4]]

/-- A two-plane stack. -/
def exFiles : List (List (List Int)) := [exPlane, exPlaneB]

/-! ### Order-insensitivity of the reduce phase -/

theorem zipWith_add_right_comm {M : Type} [AddCommMonoid M]
    (a x y : List M) :
    List.zipWith (· + ·) (List.zipWith (· + ·) a x) y =
      List.zipWith (· + ·) (List.zipWith (· + ·) a y) x := by
  induction a generalizing x y with
  | nil => simp
  | cons ha ta ih =>
    cases x with
    | nil => simp
    | cons hx tx =>
      cases y with
      | nil => simp
      | cons hy ty => simp [List.zipWith, add_right_comm, ih]

theorem accumStep_right_comm (t a b : List Nat × List Int) :
    accumStep (accumStep t a) b = accumStep (accumStep t b) a := by
  simp [accumStep, zipWith_add_right_comm]

theorem foldl_accum_perm {rs1 rs2 : List (List Nat × List Int)}
    (h : rs1.Perm rs2) :
    ∀ t, rs1.foldl accumStep t = rs2.foldl accumStep t := by
  induction h with
  | nil => intro t; rfl
  | cons x _ ih => intro t; simp only [List.foldl_cons]; exact ih _
  | swap x y l => intro t; simp only [List.foldl_cons, accumStep_right_comm]
  | trans _ _ ih1 ih2 => intro t; exact (ih1 t).trans (ih2 t)

theorem runFrom_eq_foldl (seg : Segmentation) (warp : Warp)
    (files : List (List (List Int))) (z : Nat) (t : List Nat × List Int) :
    runFrom seg warp z files t =
      ((files.enumFrom z).map fun zf => doPlane zf.2 zf.1 seg warp).foldl
        accumStep t := by
  induction files generalizing z t with
  | nil => simp [runFrom]
  | cons f rest ih => simp [runFrom, List.enumFrom_cons, ih]

/-- Folding the per-plane results of the integer-semantics model in any
permutation of the plane order yields the same totals as the in-order run:
the reduce the spec intends is order-insensitive. -/
theorem foldl_accum_perm_runSequential (files : List (List (List Int)))
    (seg : Segmentation) (warp : Warp) (rs : List (List Nat × List Int))
    (h : rs.Perm (files.enum.map fun zf => doPlane zf.2 zf.1 seg warp)) :
    rs.foldl accumStep (initTotals seg) = runSequential files seg warp := by
  rw [runSequential, runFrom_eq_foldl, ← List.enum_eq_enumFrom]
  exact foldl_accum_perm h _

/-- Claim C8: every worker count at most 0 is rejected and no plane is
processed before the failure; no contribution is accumulated. -/
theorem invalid_worker_count_rejected (nCores : Int)
    (files : List (List (List Int))) (seg : Segmentation) (warp : Warp)
    (h : nCores ≤ 0) :
    (∃ e, (mainRun nCores files seg warp).1 = Except.error e) ∧
    (mainRun nCores files seg warp).2 = 0 := by
  have h1 : nCores ≠ 1 := by omega
  have h2 : nCores < 1 := by omega
  by_cases hf : files.length = 0 <;> simp [mainRun, hf, h1, h2]

/-- Witness for C8 at worker count 0 on the two-plane stack. -/
theorem invalid_worker_count_rejected_witness :
    (∃ e, (mainRun 0 exFiles exSeg exWarp).1 = Except.error e) ∧
    (mainRun 0 exFiles exSeg exWarp).2 = 0 :=
  invalid_worker_count_rejected 0 exFiles exSeg exWarp (by decide)

/-! ### The reporting phase of `main` -/

/-- `seg_ids = np.where(total_counts > 0)[0]`: the indices with a positive
count, in increasing order. -/
def segIds (tc : List Nat) : List Nat :=
  (List.range tc.length).filter fun i => decide (0 < tc.getD i 0)

/-- The surviving rows `(seg_id, count, total_intensity)` fed to both report
paths (`zip(seg_ids, counts_per_id, total_intensities_per_id)`). -/
def survivors (tc : List Nat) (ts : List Int) : List (Nat × Nat × Int) :=
  (segIds tc).map fun i => (i, tc.getD i 0, ts.getD i 0)

/-- The region name used on the level-7 path: label 0 is always named
`not in any region`; any other id uses `br.name_per_id.get(seg_id, "id%d" % seg_id)`. -/
def region7 (names : Nat → Option String) (id : Nat) : String :=
  if id = 0 then "not in any region"
  else (names id).getD ("id" ++ toString id)

/-- The level-7 report rows `(seg_id, region, count, total_intensity)`. -/
def rows7 (tc : List Nat) (ts : List Int) (names : Nat → Option String) :
    List (Nat × String × Nat × Int) :=
  (survivors tc ts).map fun r => (r.1, region7 names r.1, r.2.1, r.2.2)

/-- The grouping loop of the coarse-level path. The Python dictionary `d`
maps a level name to the tuple `(count, intensity)`; when a second id maps to
an already present name the code executes `d[level][0] += count` on that
tuple, which raises `TypeError` (tuples are immutable) — modelled as `none`.
Otherwise the pair is inserted at the end (dictionaries preserve insertion
order). -/
def rollupGo (gln : Nat → String) :
    List (Nat × Nat × Int) → List (String × Nat × Int) →
      Option (List (String × Nat × Int))
  | [], d => some d
  | r :: rest, d =>
    if d.any fun e => e.1 == gln r.1 then none
    else rollupGo gln rest (d ++ [(gln r.1, r.2.1, r.2.2)])

/-- The coarse-level grouping of `main` over the surviving rows. -/
def rollup (rows : List (Nat × Nat × Int)) (gln : Nat → String) :
    Option (List (String × Nat × Int)) :=
  rollupGo gln rows []

/-- Two decimal digits, the fraction part of the `%.2f` format. -/
def twoDec (n : Nat) : String :=
  String.mk [Nat.digitChar (n / 10), Nat.digitChar (n % 10)]

/-- Model of the `%.2f` formatting of the mean `s / c`: the quotient is
scaled by 100 and rounded to the nearest integer (the real code rounds the
IEEE double; the claims rely only on the two-digit fraction shape), then
printed as integer part, a dot and exactly two fraction digits. -/
def fmt2 (s : Int) (c : Nat) : String :=
  let scaled : Int := (200 * s + c) / (2 * c)
  toString (scaled / 100) ++ "." ++ twoDec (scaled.natAbs % 100)

/-- The level-7 header line written by `main`. -/
def headerLevel7 : String :=
  "\"id\",\"region\",\"area\",\"total_intensity\",\"mean_intensity\""

/-- The coarse-level header line written by `main` (note the space after
the third comma, as in the source). -/
def headerCoarse : String :=
  "\"region\",\"area\", \"total_intensity\",\"mean_intensity\""

/-- A level-7 data row: `%d,"%s",%d, %d, %.2f` applied to (seg_id, region, count,
total_intensity, mean_intensity). -/
def row7String (r : Nat × String × Nat × Int) : String :=
  toString r.1 ++ ",\"" ++ r.2.1 ++ "\"," ++ toString r.2.2.1 ++ ", " ++
    toString r.2.2.2 ++ ", " ++ fmt2 r.2.2.2 r.2.2.1

/-- A coarse-level data row: `"%s",%d,%d,%.2f` applied to (level, count, intensity,
intensity / count). -/
def rowCoarseString (e : String × Nat × Int) : String :=
  "\"" ++ e.1 ++ "\"," ++ toString e.2.1 ++ "," ++ toString e.2.2 ++ "," ++
    fmt2 e.2.2 e.2.1

/-- `for level in sorted(d)`: the group rows ordered by name ascending. -/
def sortRows (d : List (String × Nat × Int)) : List (String × Nat × Int) :=
  d.insertionSort fun a b => a.1 ≤ b.1

/-- The lines of the output CSV (without trailing newlines): the level-7
path writes its header and one row per surviving id; any other level groups
the surviving rows by ancestor name at the requested level and writes the
coarse header and one row per group in sorted name order. `none` models the
`TypeError` crash of the grouping loop. -/
def reportLines (level : Nat) (tc : List Nat) (ts : List Int)
    (names : Nat → Option String) (gln : Nat → Nat → String) :
    Option (List String) :=
  if level = 7 then
    some (headerLevel7 :: (rows7 tc ts names).map row7String)
  else
    (rollup (survivors tc ts) fun id => gln id level).map fun d =>
      headerCoarse :: (sortRows d).map rowCoarseString

/-! ### Claims C5, C4 and C10 -/

/-- Claim C5: every label id with a zero total count is dropped before
reporting; every surviving row has a positive count (so the mean is
defined), and a never-hit label appears neither among the level-7 rows nor
among the rows fed to the coarse-level grouping. -/
theorem zero_count_labels_dropped (tc : List Nat) (ts : List Int)
    (names : Nat → Option String) (id : Nat) (h : tc.getD id 0 = 0) :
    (∀ r ∈ rows7 tc ts names, r.1 ≠ id) ∧
    (∀ r ∈ survivors tc ts, r.1 ≠ id) ∧
    (∀ r ∈ survivors tc ts, 0 < tc.getD r.1 0) := by
  have hs : ∀ r ∈ survivors tc ts, 0 < tc.getD r.1 0 := by
    intro r hr
    simp only [survivors, segIds, List.mem_map, List.mem_filter,
      List.mem_range] at hr
    obtain ⟨i, ⟨-, hpos⟩, rfl⟩ := hr
    simpa using hpos
  have hs2 : ∀ r ∈ survivors tc ts, r.1 ≠ id := by
    intro r hr heq
    have hpos := hs r hr
    rw [heq, h] at hpos
    exact absurd hpos (by omega)
  refine ⟨?_, hs2, hs⟩
  intro r hr
  simp only [rows7, List.mem_map] at hr
  obtain ⟨q, hq, rfl⟩ := hr
  exact hs2 q hq

/-- Totals for the dropped-label fixture: label 2 was never hit. -/
def exTcDrop : List Nat := [0, 3, 0]

/-- Intensity totals for the dropped-label fixture. -/
def exTsDrop : List Int := [0, 30, 0]

/-- A hierarchy table with no entries. -/
def exNamesNone : Nat → Option String := fun _ => none

/-- Witness for C5: label 2 has zero count and appears in no report row. -/
theorem zero_count_labels_dropped_witness :
    (∀ r ∈ rows7 exTcDrop exTsDrop exNamesNone, r.1 ≠ 2) ∧
    (∀ r ∈ survivors exTcDrop exTsDrop, r.1 ≠ 2) ∧
    (∀ r ∈ survivors exTcDrop exTsDrop, 0 < exTcDrop.getD r.1 0) :=
  zero_count_labels_dropped exTcDrop exTsDrop exNamesNone 2 (by decide)

/-- An ancestor-name lookup mapping every id to the same name. -/
def exGlnCortex : Nat → String := fun _ => "CortexA"

/-- Claim C4 (against the code): the coarse-level grouping loop fails as soon
as a second surviving id maps to an ancestor name already in the dictionary
(`d[level][0] += count` mutates a tuple and raises `TypeError`), so the
scenario of spec section 8 — ids 10 and 11 both rolling up into CortexA —
crashes instead of producing one summed row; a name hit by a single id is
emitted unsummed. -/
theorem rollup_collision_fails :
    rollup [(10, 5, 50), (11, 7, 70)] exGlnCortex = none ∧
    rollup [(10, 5, 50)] exGlnCortex = some [("CortexA", 5, 50)] := by
  exact ⟨rfl, rfl⟩

/-- A hierarchy table that does name label 0. -/
def exNamesBg : Nat → Option String :=
  fun n => if n = 0 then some "Background" else none

/-- Claim C10: the substitution of `not in any region` for label 0 happens
only on the level-7 path — even when the hierarchy names label 0, the
level-7 row says `not in any region`, a nonzero id uses the hierarchy lookup
with the `id%d` fallback, and the coarse-level grouping passes every id,
label 0 included, to the ancestor-name lookup with no special case. -/
theorem label_zero_special_case_level7_only (names : Nat → Option String)
    (gln : Nat → String) (_bg : names 0 = some "Background") :
    region7 names 0 = "not in any region" ∧
    (∀ id c s, rollup [(id, c, s)] gln = some [(gln id, c, s)]) ∧
    region7 names 1 = (names 1).getD "id1" := by
  refine ⟨rfl, ?_, rfl⟩
  intro id c s
  rfl

/-- Witness for C10 with a hierarchy that names label 0 `Background`. -/
theorem label_zero_special_case_level7_only_witness :
    region7 exNamesBg 0 = "not in any region" ∧
    (∀ id c s, rollup [(id, c, s)] exGlnCortex = some [(exGlnCortex id, c, s)]) ∧
    region7 exNamesBg 1 = (exNamesBg 1).getD "id1" :=
  label_zero_special_case_level7_only exNamesBg exGlnCortex rfl

/-! ### Claim C7: headers and row format -/

theorem string_append_assoc (a b c : String) : a ++ b ++ c = a ++ (b ++ c) := by
  apply String.ext
  have hd : ∀ x y : String, (x ++ y).data = x.data ++ y.data := fun _ _ => rfl
  simp [hd, List.append_assoc]

theorem digitChar_isDigit : ∀ d : Nat, d < 10 → (Nat.digitChar d).isDigit = true := by
  decide

/-- A string ends with a dot followed by exactly two decimal digits. -/
def endsTwoDec (s : String) : Prop :=
  ∃ t a b, s = t ++ "." ++ String.mk [a, b] ∧ a.isDigit = true ∧ b.isDigit = true

theorem twoDec_shape (n : Nat) (h : n < 100) :
    ∃ a b, twoDec n = String.mk [a, b] ∧ a.isDigit = true ∧ b.isDigit = true :=
  ⟨_, _, rfl, digitChar_isDigit _ (by omega),
    digitChar_isDigit _ (Nat.mod_lt _ (by omega))⟩

theorem endsTwoDec_append_fmt2 (A : String) (s : Int) (c : Nat) :
    endsTwoDec (A ++ fmt2 s c) := by
  obtain ⟨a, b, he, ha, hb⟩ :=
    twoDec_shape (((200 * s + c) / (2 * c)).natAbs % 100)
      (Nat.mod_lt _ (by omega))
  refine ⟨A ++ toString ((200 * s + (c : Int)) / (2 * c) / 100), a, b, ?_, ha, hb⟩
  show A ++ ((toString ((200 * s + (c : Int)) / (2 * c) / 100) ++ "." ++
    twoDec (((200 * s + c) / (2 * c)).natAbs % 100)) : String) = _
  rw [he]
  simp [string_append_assoc]

theorem rollupGo_length (gln : Nat → String) (rows : List (Nat × Nat × Int)) :
    ∀ d d2, rollupGo gln rows d = some d2 → d2.length = d.length + rows.length := by
  induction rows with
  | nil =>
    intro d d2 h
    simp only [rollupGo, Option.some_inj] at h
    simp [← h]
  | cons r rest ih =>
    intro d d2 h
    rw [rollupGo] at h
    split at h
    · exact absurd h (by simp)
    · have := ih _ _ h
      simp only [List.length_append, List.length_cons, List.length_nil] at this
      simp [this]
      omega

theorem rollup_length {rows : List (Nat × Nat × Int)} {gln : Nat → String}
    {d : List (String × Nat × Int)} (h : rollup rows gln = some d) :
    d.length = rows.length := by
  have := rollupGo_length gln rows [] d h
  simpa using this

theorem survivors_length (tc : List Nat) (ts : List Int) :
    (survivors tc ts).length = (segIds tc).length :=
  List.length_map _ _

/-- Claim C7 as amended: whenever the report is produced, its first line is
exactly the level-7 header at level 7 and exactly the coarse header (which
contains a space after the third comma) at any other level; it has one data
row per surviving id (level 7) or per emitted group (coarse), and every data
row ends with a mean formatted with a dot and exactly two decimal digits. -/
theorem report_format (level : Nat) (tc : List Nat) (ts : List Int)
    (names : Nat → Option String) (gln : Nat → Nat → String)
    (lines : List String) (h : reportLines level tc ts names gln = some lines) :
    lines.head? = some (if level = 7 then headerLevel7 else headerCoarse) ∧
    lines.length = 1 + (segIds tc).length ∧
    ∀ str ∈ lines.tail, endsTwoDec str := by
  by_cases h7 : level = 7
  · subst h7
    simp only [reportLines, if_true, eq_self_iff_true, Option.some_inj] at h
    subst h
    refine ⟨by simp, ?_, ?_⟩
    · simp [rows7, survivors, List.length_map]
      omega
    · intro str hstr
      simp only [List.tail_cons, List.mem_map] at hstr
      obtain ⟨r, -, rfl⟩ := hstr
      exact endsTwoDec_append_fmt2 _ _ _
  · simp only [reportLines, if_neg h7, Option.map_eq_some'] at h
    obtain ⟨d, hd, rfl⟩ := h
    refine ⟨by simp [h7], ?_, ?_⟩
    · have hlen := rollup_length hd
      simp [sortRows, List.length_insertionSort, hlen, survivors_length]
      omega
    · intro str hstr
      simp only [List.tail_cons, List.mem_map] at hstr
      obtain ⟨e, -, rfl⟩ := hstr
      exact endsTwoDec_append_fmt2 _ _ _

/-- An ancestor-name lookup giving each id its own name. -/
def exGlnById : Nat → Nat → String := fun id _ => "R" ++ toString id

/-- First line of an optional report. -/
def firstLine (o : Option (List String)) : Option String :=
  o.bind List.head?

/-- Counterexample to claim C7 as stated: at level 1 the header actually
written is `headerCoarse`, which has a space after the third comma and so is
not the claimed string without the space. -/
theorem coarse_header_has_space :
    firstLine (reportLines 1 exTcDrop exTsDrop exNamesNone exGlnById) =
      some headerCoarse ∧
    headerCoarse ≠ "\"region\",\"area\",\"total_intensity\",\"mean_intensity\"" := by
  exact ⟨rfl, by decide⟩

/-- Witness for the amended C7 at level 1 on the dropped-label fixture. -/
theorem report_format_witness :
    ([headerCoarse, "\"R1\",3,30,10.00"] : List String).head? =
      some (if 1 = 7 then headerLevel7 else headerCoarse) ∧
    ([headerCoarse, "\"R1\",3,30,10.00"] : List String).length =
      1 + (segIds exTcDrop).length ∧
    ∀ str ∈ ([headerCoarse, "\"R1\",3,30,10.00"] : List String).tail,
      endsTwoDec str :=
  report_format 1 exTcDrop exTsDrop exNamesNone exGlnById
    [headerCoarse, "\"R1\",3,30,10.00"] (by rfl)

/-! ### Claim C9: the `astype(np.uint16)` cast on load -/

/-- Cast of one raw segmentation value by `.astype(np.uint16)`: numpy
reduces the value modulo 2 to the 16. -/
def castU16 (v : Int) : Nat := (v % 65536).toNat

/-- Loading the reference segmentation:
`tifffile.imread(args.reference_segmentation).astype(np.uint16)` copied into
the shared volume, which every later `do_plane` and the totals sizing read. -/
def loadSegmentation (dz dy dx : Nat) (raw : List Int) : Segmentation :=
  ⟨dz, dy, dx, raw.map castU16⟩

/-- Claim C9: every value of the reference segmentation is reduced modulo
2 to the 16 when placed in the shared label volume: the loaded data is the
pointwise cast of the raw data, the cast of a non-negative value is its
value modulo 65536, adding 65536 to a raw value does not change its cast
(so ids of 65536 or more alias lower ids), and every stored label is below
65536. -/
theorem segmentation_cast_mod_u16 (dz dy dx : Nat) (raw : List Int) (i : Nat)
    (v : Int) :
    (loadSegmentation dz dy dx raw).data.getD i 0 = castU16 (raw.getD i 0) ∧
    (castU16 v : Int) = v % 65536 ∧
    castU16 (v + 65536) = castU16 v ∧
    castU16 v < 65536 := by
  refine ⟨?_, ?_, ?_, ?_⟩
  · simp only [loadSegmentation, List.getD_eq_getElem?_getD, List.getElem?_map]
    cases hr : raw[i]? with
    | none => simp [castU16]
    | some w => simp
  · exact Int.toNat_of_nonneg (Int.emod_nonneg v (by norm_num))
  · unfold castU16
    have hrw : v + 65536 = v + 65536 * 1 := by ring
    rw [hrw, Int.add_mul_emod_self_left]
  · have h1 : v % 65536 < 65536 := Int.emod_lt_of_pos v (by norm_num)
    have h2 : 0 ≤ v % 65536 := Int.emod_nonneg v (by norm_num)
    unfold castU16
    omega

example : castU16 65537 = 1 := by decide

/-! ### Claim C3: the numeric type of the accumulators -/

/-- The integers exactly representable as an IEEE 754 double: a mantissa of
at most 2 to the 53 times a power of two. -/
def isF64Representable (n : Nat) : Prop :=
  ∃ m k : Nat, m ≤ 2 ^ 53 ∧ n = m * 2 ^ k

/-- A one-row plane holding intensities 2 to the 53 and 1. -/
def exPlaneBig : List (List Int) := [[9007199254740992, 1]]

/-- A 1 by 1 by 2 segmentation whose two voxels both carry label 1. -/
def exSegOne : Segmentation := ⟨1, 1, 2, [1, 1]⟩

/-- An odd number above 2 to the 53 is not float64-representable: a power of
two factor would make it even, and with no such factor the mantissa is too
large. -/
theorem odd_above_mantissa_not_f64 (n : Nat) (hgt : 2 ^ 53 < n)
    (hodd : ¬ Even n) : ¬ isF64Representable n := by
  rintro ⟨m, k, hm, he⟩
  cases k with
  | zero =>
    rw [pow_zero, mul_one] at he
    generalize hg : 2 ^ 53 = a at hgt hm
    omega
  | succ j =>
    have heven : Even (m * 2 ^ (j + 1)) :=
      Even.mul_left (by simp [Nat.even_pow]) m
    rw [← he] at heven
    exact hodd heven

/-- Claim C3 (against the code): the exact integer per-plane intensity sum
of label 1 on this plane is 2 to the 53 plus 1, a value no IEEE float64 can
hold — but `np.bincount(seg, weights, minlength)` accumulates its weights in
float64 (the `astype(np.int64)` on the weights notwithstanding) and returns
a float64 vector, so the per-plane sums are not accumulated in exact 64-bit
integer arithmetic as claimed. -/
theorem plane_sum_exceeds_f64 :
    (doPlane exPlaneBig 0 exSegOne exWarp).2.getD 1 0 = 2 ^ 53 + 1 ∧
    ¬ isF64Representable (2 ^ 53 + 1) :=
  ⟨by decide, odd_above_mantissa_not_f64 _
    (Nat.lt_add_of_pos_right (by norm_num)) (by decide)⟩

/-- Claim C1 (against the code): at the failing plane the structural half of
the `do_plane` contract holds — the counts vector, produced by the
unweighted integer `np.bincount`, has length `max(m) + 1` and counts both
in-bounds pixels under label 1 — but the exact intensity sum of label 1 is
2 to the 53 plus 1, which no IEEE float64 holds; since the weighted
`np.bincount` returns float64, the real `sums[1]` is a rounded value, not
the sum of the intensities of those pixels. -/
theorem doPlane_at_failing_input :
    (doPlane exPlaneBig 0 exSegOne exWarp).1 = [0, 2] ∧
    (doPlane exPlaneBig 0 exSegOne exWarp).1.length = exSegOne.maxLabel + 1 ∧
    (((planePixels exPlaneBig).filter fun p =>
      inBounds exSegOne (exWarp 0 p.1 p.2.1) &&
        (labelAtC exSegOne (exWarp 0 p.1 p.2.1) == 1)).map fun p => p.2.2).sum =
      2 ^ 53 + 1 ∧
    ¬ isF64Representable (2 ^ 53 + 1) :=
  ⟨by decide, by decide, by decide, odd_above_mantissa_not_f64 _
    (Nat.lt_add_of_pos_right (by norm_num)) (by decide)⟩

/-- A warp collapsing every plane onto the single z slice of `exSegOne`. -/
def exWarpFlat : Warp := fun _ y x => (0, (y : Int), (x : Int))

/-- A small second plane, both pixels of intensity 1 under label 1. -/
def exPlaneSmall : List (List Int) := [[1, 1]]

/-- The failing two-plane stack: exact sums total 2 to the 53 plus 3. -/
def exFilesBig : List (List (List Int)) := [exPlaneBig, exPlaneSmall]

/-- Claim C2 (against the code): on the failing stack the counts total of
label 1 is exactly 4 (that half of the guarantee is int64 and exact) and
the one-core dispatch is the sequential index-order loop, but the exact
elementwise intensity total is 2 to the 53 plus 3, which no IEEE float64
holds — the real `total_sums += s` adds the float64 bincount result into
the int64 totals, raising a casting error (or rounding), so the exact
totals guarantee fails on the sums. -/
theorem totals_at_failing_input :
    (runSequential exFilesBig exSegOne exWarpFlat).1.getD 1 0 = 4 ∧
    mainRun 1 exFilesBig exSegOne exWarpFlat =
      (Except.ok (runSequential exFilesBig exSegOne exWarpFlat),
        exFilesBig.length) ∧
    (runSequential exFilesBig exSegOne exWarpFlat).2.getD 1 0 = 2 ^ 53 + 3 ∧
    ¬ isF64Representable (2 ^ 53 + 3) :=
  ⟨by decide, mainRun_one_core exFilesBig exSegOne exWarpFlat (by decide),
   by decide, odd_above_mantissa_not_f64 _
    (Nat.lt_add_of_pos_right (by norm_num)) (by decide)⟩

/-- The per-plane results of the failing stack. -/
def exResultsBig : List (List Nat × List Int) :=
  exFilesBig.enum.map fun zf => doPlane zf.2 zf.1 exSegOne exWarpFlat

/-- Claim C6 (against the code): under the exact integer semantics the spec
intends, reducing the per-plane results of the failing stack in reversed
order yields totals identical to the in-order run — but those totals hold
the value 2 to the 53 plus 3 in the sums slot of label 1, which no IEEE
float64 holds, and in every permutation the first `total_sums += s` adds a
float64 vector into the int64 totals and raises a casting error, so the
real reduce yields no totals at all, in any order. -/
theorem reduce_at_failing_input :
    exResultsBig.reverse.foldl accumStep (initTotals exSegOne) =
      runSequential exFilesBig exSegOne exWarpFlat ∧
    (exResultsBig.reverse.foldl accumStep (initTotals exSegOne)).2.getD 1 0 =
      2 ^ 53 + 3 ∧
    ¬ isF64Representable (2 ^ 53 + 3) :=
  ⟨by decide, by decide, odd_above_mantissa_not_f64 _
    (Nat.lt_add_of_pos_right (by norm_num)) (by decide)⟩

end Nuggt
